import Mathlib

/-
  Verification development for the argcall repository.

  The repository has two components:
  * crates/argcall/src/lib.rs: the calling-convention trait family
    (Callable, CallableMut, CallableOnce), the blanket forwarding
    implementations between them, and the optional asynchronous bridge
    methods returning core::future::Ready.
  * crates/argcall_derive/src/lib.rs: the derive generator that consumes an
    annotated enum declaration and emits marker structs plus a dispatcher
    implementation of the requested trait.

  Both are embedded shallowly below.  Receiver mutation through a mutable
  reference is modelled by explicit state passing: a call through a mutable
  receiver returns the result together with the updated receiver value.
  Fallible generator code (syn errors, expect and unwrap panics) is
  modelled with Except.
-/

namespace Argcall

/- ===================== crates/argcall/src/lib.rs ===================== -/

/-- Model of the marker trait Tuple, implemented for the unit type only. -/
class Tuple (α : Type) : Prop

instance : Tuple Unit := ⟨⟩

/-- Model of trait Callable: call_fn takes the receiver by shared
reference, so it cannot change the receiver; it is a pure function from
receiver and argument bundle to output. -/
structure Callable (σ : Type) (α : Type) (β : Type) [Tuple α] where
  call_fn : σ → α → β

/-- Model of trait CallableMut: call_fn_mut takes the receiver by mutable
reference; it returns the output together with the updated receiver. -/
structure CallableMut (σ : Type) (α : Type) (β : Type) [Tuple α] where
  call_fn_mut : σ → α → β × σ

/-- Model of trait CallableOnce: call_fn_once consumes the receiver. -/
structure CallableOnce (σ : Type) (α : Type) (β : Type) [Tuple α] where
  call_fn_once : σ → α → β

variable {σ α β : Type}

/-- Model of the blanket impl of CallableMut for every T implementing
Callable: the body forwards to call_fn, leaving the receiver unchanged. -/
def CallableMut.ofCallable [Tuple α] (c : Callable σ α β) : CallableMut σ α β :=
  ⟨fun s a => (c.call_fn s a, s)⟩

/-- Model of the blanket impl of CallableOnce for every T implementing
CallableMut: the body uses the owned value as a one-time mutable borrow
and forwards to call_fn_mut, discarding the final receiver state. -/
def CallableOnce.ofCallableMut [Tuple α] (m : CallableMut σ α β) : CallableOnce σ α β :=
  ⟨fun s a => (m.call_fn_mut s a).1⟩

/-- Model of core::future::Ready, the future that is already resolved at
construction time. -/
structure Ready (β : Type) where
  value : β

/-- Model of core::task::Poll. -/
inductive Poll (β : Type) where
  | Ready (value : β)
  | Pending
  deriving DecidableEq

/-- Model of core::future::ready. -/
def ready (b : β) : Ready β := ⟨b⟩

/-- Polling a Ready future resolves immediately with its value. -/
def Ready.poll (r : Ready β) : Poll β := Poll.Ready r.value

/-- Default method Callable::call_fn_async. -/
def Callable.call_fn_async [Tuple α] (c : Callable σ α β) (s : σ) (a : α) :
    Ready β :=
  ready (c.call_fn s a)

/-- Default method CallableMut::call_fn_async_mut; the receiver update of
the underlying synchronous call is returned alongside the future. -/
def CallableMut.call_fn_async_mut [Tuple α] (m : CallableMut σ α β) (s : σ)
    (a : α) : Ready β × σ :=
  (ready (m.call_fn_mut s a).1, (m.call_fn_mut s a).2)

/-- Default method CallableOnce::call_fn_async_once. -/
def CallableOnce.call_fn_async_once [Tuple α] (o : CallableOnce σ α β) (s : σ)
    (a : α) : Ready β :=
  ready (o.call_fn_once s a)

/- ================= crates/argcall_derive/src/lib.rs ================= -/

/-- The three derive entry points. -/
inductive CallableType where
  | Callable
  | CallableMut
  | CallableOnce
  deriving DecidableEq

/-- CallableType::as_trait, rendered as the token text it produces. -/
def CallableType.as_trait : CallableType → String
  | .Callable => "argcall::Callable"
  | .CallableMut => "argcall::CallableMut"
  | .CallableOnce => "argcall::CallableOnce"

/-- CallableType::as_fn, the generated method signature tokens. -/
def CallableType.as_fn : CallableType → String
  | .Callable => "call_fn(&self, _: ())"
  | .CallableMut => "call_fn_mut(&mut self, _: ())"
  | .CallableOnce => "call_fn_once(self, _: ())"

/-- A token fragment supplied by the user inside an attribute value.
A fragment is either a string literal (the only shape fn_path accepts)
or any other token text, identified by its text. -/
inductive Frag where
  | litStr (s : String)
  | raw (s : String)
  deriving DecidableEq

/-- One key-value entry of a parenthesized attribute list; value is none
when the entry has no equals sign. -/
structure MetaItem where
  key : String
  value : Option Frag
  deriving DecidableEq

/-- The token text of a fragment as written inside the attribute group;
a string literal renders with its quotes. -/
def Frag.text : Frag → String
  | .litStr s => "\x22" ++ s ++ "\x22"
  | .raw s => s

/-- The token text of one nested meta entry as written in the group. -/
def MetaItem.text (m : MetaItem) : String :=
  match m.value with
  | none => m.key
  | some v => m.key ++ " = " ++ v.text

/-- The token text of the remaining entries of the group, each preceded
by the comma that separated it from the previous entry. -/
def renderTail : List MetaItem → String
  | [] => ""
  | m :: rest => ", " ++ m.text ++ renderTail rest

/-- A value parsed as a proc_macro2 token stream is greedy: the parse
consumes everything up to the end of the attribute group, so the
resulting tokens are the written value followed by the text of every
later entry of the group.  Token spacing is rendered canonically with
single spaces. -/
def greedyValue (v : Frag) (rest : List MetaItem) : Frag :=
  match rest with
  | [] => v
  | _ :: _ => .raw (v.text ++ renderTail rest)

/-- Model of syn::Attribute: its path, an abstract source span, and the
nested meta items. -/
structure SynAttr where
  path : String
  span : Nat
  items : List MetaItem
  deriving DecidableEq

/-- Model of syn::Fields: the shape of one variant. -/
inductive VFields where
  | Unit
  | Unnamed (arity : Nat)
  | Named (names : List String)
  deriving DecidableEq

/-- Model of syn::Variant: name, abstract source span, attributes, fields. -/
structure Variant where
  ident : String
  span : Nat
  attrs : List SynAttr
  fields : VFields
  deriving DecidableEq

/-- Model of syn::Data. -/
inductive Data where
  | Enum (variants : List Variant)
  | Struct
  | Union
  deriving DecidableEq

/-- Model of syn::DeriveInput. -/
structure DeriveInput where
  ident : String
  attrs : List SynAttr
  data : Data
  deriving DecidableEq

/-- A generation failure: either a Rust panic (from expect, unwrap or
the panic in the data match) or a syn::Error carrying the span of the
tokens it was attached to. -/
inductive GenError where
  | panicErr (msg : String)
  | synErr (span : Nat) (msg : String)
  deriving DecidableEq

/-- An expression occurring in generated code: a user expression taken
verbatim from an fn entry, a call of a named function on positional
arguments built from an fn_path entry, or the forwarding call emitted for
a variant with unnamed fields. -/
inductive GenExpr where
  | user (e : Frag)
  | callPath (name : String) (args : List String)
  | forward (ct : CallableType) (binder : String)
  deriving DecidableEq

/-- The marker struct emitted for a unit variant, with the trait and
method signature it implements and the expression in its body. -/
structure VariantStruct where
  struct_name : String
  trait_name : String
  fn_sig : String
  output_type : Frag
  body : GenExpr
  deriving DecidableEq

/-- A pattern of one generated match arm. -/
inductive Pat where
  | unitPat (enumName : String) (variantName : String)
  | tuplePat (enumName : String) (variantName : String) (binder : String)
  | namedPat (enumName : String) (variantName : String) (binders : List String)
  deriving DecidableEq

/-- One generated match arm. -/
structure MatchArm where
  pat : Pat
  body : GenExpr
  deriving DecidableEq

/-- The full output of generic_callable: the marker structs (none for the
variants that emit an empty token stream) and the dispatcher impl. -/
structure Generated where
  variant_structs : List (Option VariantStruct)
  trait_name : String
  enum_name : String
  output_type : Frag
  fn_sig : String
  match_arms : List MatchArm
  deriving DecidableEq

/-- The variant name a pattern matches. -/
def Pat.variantName : Pat → String
  | .unitPat _ vn => vn
  | .tuplePat _ vn _ => vn
  | .namedPat _ vn _ => vn

/-- The identifiers a pattern binds, in order. -/
def Pat.binders : Pat → List String
  | .unitPat _ _ => []
  | .tuplePat _ _ b => [b]
  | .namedPat _ _ bs => bs

/-- The filter attr.path().is_ident("argcall") applied to an attribute
list, keeping source order. -/
def argcallAttrs (attrs : List SynAttr) : List SynAttr :=
  attrs.filter (fun a => a.path == "argcall")

/-- The first argcall attribute, as picked by iterator next(). -/
def firstArgcall (attrs : List SynAttr) : Option SynAttr :=
  (argcallAttrs attrs).head?

/-- The closure loop of parse_output_attribute over the nested meta items.
An output entry parses its value as a token stream, which is greedy: it
consumes the rest of the group, so the loop ends there and any later
entries are swallowed into the value rather than visited.  Any other key
aborts with an unrecognized-key error. -/
def outputAttrGo (sp : Nat) : List MetaItem → Option Frag →
    Except GenError (Option Frag)
  | [], acc => .ok acc
  | m :: rest, _ =>
    if m.key == "output" then
      match m.value with
      | some v => .ok (some (greedyValue v rest))
      | none => .error (.synErr sp "expected a value")
    else
      .error (.synErr sp ("unrecognized attribute for argcall: " ++ m.key))

/-- Model of parse_output_attribute. -/
def parse_output_attribute (attr : SynAttr) : Except GenError Frag :=
  match outputAttrGo attr.span attr.items none with
  | .error e => .error e
  | .ok (some v) => .ok v
  | .ok none => .error (.synErr attr.span "expected an \x27output\x27 attribute")

/-- The closure loop of parse_fn_attribute.  An fn entry parses its value
as a token stream, which is greedy: it consumes the rest of the group and
ends the loop.  An fn_path entry parses exactly one string literal (not
greedy), builds a call of that name on the supplied argument identifiers,
and iteration continues, a later entry overwriting the accumulator.  Any
other key aborts. -/
def fnAttrGo (sp : Nat) (args : List String) : List MetaItem → Option GenExpr →
    Except GenError (Option GenExpr)
  | [], acc => .ok acc
  | m :: rest, acc =>
    if m.key == "fn" then
      match m.value with
      | some v => .ok (some (.user (greedyValue v rest)))
      | none => .error (.synErr sp "expected a value")
    else if m.key == "fn_path" then
      match m.value with
      | some (.litStr s) => fnAttrGo sp args rest (some (.callPath s args))
      | some (.raw _) => .error (.synErr sp "expected string literal")
      | none => .error (.synErr sp "expected a value")
    else
      .error (.synErr sp ("unrecognized attribute for argcall: " ++ m.key))

/-- Model of parse_fn_attribute. -/
def parse_fn_attribute (attr : SynAttr) (args : List String) :
    Except GenError GenExpr :=
  match fnAttrGo attr.span args attr.items none with
  | .error e => .error e
  | .ok (some f) => .ok f
  | .ok none => .error (.synErr attr.span "expected an \x27fn\x27 attribute")

/-- The func_token computation of parse_variant: the first argcall
attribute of the variant is parsed with parse_fn_attribute; its absence is
the missing-attribute error spanned at the variant. -/
def variantFn (variant : Variant) (args : List String) :
    Except GenError GenExpr :=
  match firstArgcall variant.attrs with
  | none => .error (.synErr variant.span "expected an \x27argcall\x27 attribute")
  | some attr => parse_fn_attribute attr args

/-- Model of parse_variant.  Unit variants produce a marker struct and a
match arm holding the bound expression; unnamed-field variants ignore
their attributes and produce an arm forwarding to the inner value through
the sibling method of the requested trait; named-field variants produce an
arm whose pattern binds every field name in declaration order. -/
def parse_variant (ct : CallableType) (enum_name : String)
    (output_type : Frag) (variant : Variant) :
    Except GenError (Option VariantStruct × MatchArm) :=
  match variant.fields with
  | .Unit =>
    match variantFn variant [] with
    | .error e => .error e
    | .ok func_token =>
      .ok (some ⟨enum_name ++ variant.ident ++ "Callable", ct.as_trait,
                 ct.as_fn, output_type, func_token⟩,
           ⟨.unitPat enum_name variant.ident, func_token⟩)
  | .Unnamed _ =>
    .ok (none, ⟨.tuplePat enum_name variant.ident "value",
                .forward ct "value"⟩)
  | .Named names =>
    match variantFn variant names with
    | .error e => .error e
    | .ok func_token =>
      .ok (none, ⟨.namedPat enum_name variant.ident names, func_token⟩)

/-- The try_for_each loop of generic_callable over the variants, producing
the marker-struct and match-arm lists in declaration order and stopping at
the first failing variant. -/
def collectVariants (ct : CallableType) (enum_name : String)
    (output_type : Frag) :
    List Variant → Except GenError (List (Option VariantStruct × MatchArm))
  | [] => .ok []
  | v :: rest =>
    match parse_variant ct enum_name output_type v with
    | .error e => .error e
    | .ok r =>
      match collectVariants ct enum_name output_type rest with
      | .error e => .error e
      | .ok rs => .ok (r :: rs)

/-- The output-type extraction of generic_callable: the first argcall
attribute is required (expect panics otherwise) and parsed with
parse_output_attribute (unwrap propagates its error as a panic). -/
def extractOutput (attrs : List SynAttr) : Except GenError Frag :=
  match firstArgcall attrs with
  | none => .error (.panicErr "Expected #[argcall(output=...)] attribute on enum")
  | some attr => parse_output_attribute attr

/-- Model of generic_callable. -/
def generic_callable (ct : CallableType) (input : DeriveInput) :
    Except GenError Generated :=
  match input.data with
  | .Struct => .error (.panicErr "#[derive(Callable)] can only be applied to enums")
  | .Union => .error (.panicErr "#[derive(Callable)] can only be applied to enums")
  | .Enum variants =>
    match extractOutput input.attrs with
    | .error e => .error e
    | .ok output_type =>
      match collectVariants ct input.ident output_type variants with
      | .error e => .error e
      | .ok rs =>
        .ok ⟨rs.map Prod.fst, ct.as_trait, input.ident, output_type,
             ct.as_fn, rs.map Prod.snd⟩

/- ============== semantics of the generated dispatcher ============== -/

/-- A run-time value of the annotated enum: the active variant name plus
its payload (nothing, one inner value, or named field values). -/
inductive EnumVal (V : Type) where
  | unitV (variantName : String)
  | tupleV (variantName : String) (inner : V)
  | namedV (variantName : String) (fields : List (String × V))

/-- The variant a value was constructed as. -/
def EnumVal.variantName {V : Type} : EnumVal V → String
  | .unitV n => n
  | .tupleV n _ => n
  | .namedV n _ => n

/-- An interpretation of the user-supplied parts of generated code: the meaning
of a user expression under the identifiers in scope, the meaning of
calling a named function on positional argument values, and the three
sibling methods of the inner value of a tuple variant, each taking the
unit argument bundle. -/
structure EvalCtx (V : Type) where
  evalUser : Frag → List (String × V) → V
  evalFnCall : String → List V → V
  inner_call_fn : V → Unit → V
  inner_call_fn_mut : V → Unit → V
  inner_call_fn_once : V → Unit → V

/-- The sibling method of the inner value selected by the generated
forwarding arm, applied to the empty argument bundle. -/
def EvalCtx.forwardCall {V : Type} (ctx : EvalCtx V) (ct : CallableType)
    (inner : V) : V :=
  match ct with
  | .Callable => ctx.inner_call_fn inner ()
  | .CallableMut => ctx.inner_call_fn_mut inner ()
  | .CallableOnce => ctx.inner_call_fn_once inner ()

/-- Looking up an identifier among the bindings in scope. -/
def lookupEnv {V : Type} (env : List (String × V)) (k : String) : Option V :=
  match env with
  | [] => none
  | (k₀, v) :: rest => if k₀ = k then some v else lookupEnv rest k

/-- Rust pattern matching of one generated arm pattern against a value:
on success it yields the bindings the pattern introduces, in order. -/
def Pat.matches {V : Type} (p : Pat) (v : EnumVal V) :
    Option (List (String × V)) :=
  match p, v with
  | .unitPat _ pn, .unitV n => if pn = n then some [] else none
  | .tuplePat _ pn b, .tupleV n inner =>
    if pn = n then some [(b, inner)] else none
  | .namedPat _ pn bs, .namedV n fields =>
    if pn = n then
      bs.mapM (fun b => (lookupEnv fields b).map (fun x => (b, x)))
    else none
  | _, _ => none

/-- Evaluation of a generated expression under the bindings in scope. -/
def GenExpr.eval {V : Type} (ctx : EvalCtx V) (env : List (String × V)) :
    GenExpr → Option V
  | .user e => some (ctx.evalUser e env)
  | .callPath f args => (args.mapM (lookupEnv env)).map (ctx.evalFnCall f)
  | .forward ct b => (lookupEnv env b).map (ctx.forwardCall ct)

/-- Rust match evaluation: the first arm whose pattern matches runs. -/
def evalArms {V : Type} (ctx : EvalCtx V) :
    List MatchArm → EnumVal V → Option V
  | [], _ => none
  | arm :: rest, v =>
    match arm.pat.matches v with
    | some env => arm.body.eval ctx env
    | none => evalArms ctx rest v

/-- Running the generated dispatcher body on an enum value. -/
def evalDispatch {V : Type} (ctx : EvalCtx V) (g : Generated)
    (v : EnumVal V) : Option V :=
  evalArms ctx g.match_arms v

/- ============ concrete inputs used in examples below ============ -/

/-- A sample synchronous implementation used to exercise the trait laws. -/
def c1Callable : Callable Nat Unit Nat := ⟨fun s _ => s + 41⟩

/-- A sample mutating implementation. -/
def c5Mut : CallableMut Nat Unit Nat := ⟨fun s _ => (s * 2, s + 1)⟩

/-- A sample consuming implementation. -/
def c5Once : CallableOnce Nat Unit Nat := ⟨fun s _ => s + 7⟩

/-- A sample evaluation context over natural-number values. -/
def natCtx : EvalCtx Nat :=
  ⟨fun e env =>
      (match e with | .litStr s => s.length | .raw s => 10 * s.length) +
        env.foldl (fun acc p => acc + p.2) 0,
   fun f vals => f.length + vals.foldl (fun acc x => 100 * acc + x) 0,
   fun v _ => v + 1,
   fun v _ => v + 2,
   fun v _ => v + 3⟩

/-- The declaration-level attribute argcall(output = u8). -/
def exOutputAttr : SynAttr := ⟨"argcall", 0, [⟨"output", some (.raw "u8")⟩]⟩

/-- A unit variant A with argcall(fn = one()). -/
def exUnitA : Variant :=
  ⟨"A", 1, [⟨"argcall", 2, [⟨"fn", some (.raw "one()")⟩]⟩], .Unit⟩

/-- A unit variant B with argcall(fn_path = two). -/
def exUnitB : Variant :=
  ⟨"B", 3, [⟨"argcall", 4, [⟨"fn_path", some (.litStr "two")⟩]⟩], .Unit⟩

/-- A single-anonymous-field variant C with no attributes. -/
def exTupleC : Variant := ⟨"C", 5, [], .Unnamed 1⟩

/-- A named-field variant D with argcall(fn_path = f) and fields x, y. -/
def exNamedD : Variant :=
  ⟨"D", 6, [⟨"argcall", 7, [⟨"fn_path", some (.litStr "f")⟩]⟩],
   .Named ["x", "y"]⟩

/-- A named-field variant E with argcall(fn = x + 1) and field count. -/
def exNamedE : Variant :=
  ⟨"E", 8, [⟨"argcall", 9, [⟨"fn", some (.raw "x + 1")⟩]⟩], .Named ["count"]⟩

/-- A unit variant M carrying no argcall attribute at all. -/
def exMissing : Variant := ⟨"M", 10, [], .Unit⟩

/-- Input for the all-unit-variant dispatch example. -/
def c2input : DeriveInput := ⟨"Ex", [exOutputAttr], .Enum [exUnitA, exUnitB]⟩

/-- Input for the forwarding example with a tuple variant. -/
def c3input : DeriveInput := ⟨"Ex", [exOutputAttr], .Enum [exUnitA, exTupleC]⟩

/-- Input for the named-field fn_path example. -/
def c4input : DeriveInput := ⟨"Ex", [exOutputAttr], .Enum [exNamedD]⟩

/-- Input for the marker-struct example. -/
def c6input : DeriveInput := ⟨"Foo", [exOutputAttr], .Enum [exUnitA]⟩

/-- Input whose one argcall group carries two output entries. -/
def c7input : DeriveInput :=
  ⟨"Foo", [⟨"argcall", 0, [⟨"output", some (.raw "A")⟩,
                           ⟨"output", some (.raw "B")⟩]⟩], .Enum []⟩

/-- Input whose second variant is missing its argcall attribute. -/
def c8input : DeriveInput := ⟨"Ex", [exOutputAttr], .Enum [exUnitA, exMissing]⟩

/-- Input for the named-field fn example. -/
def c9input : DeriveInput := ⟨"Ex", [exOutputAttr], .Enum [exNamedE]⟩

/-- Input with no variants at all. -/
def c10input : DeriveInput := ⟨"Empty", [exOutputAttr], .Enum []⟩

/-- Output of the generator on c2input at the by-reference entry point. -/
def c2gen : Generated :=
  ⟨[some ⟨"ExACallable", "argcall::Callable", "call_fn(&self, _: ())",
          .raw "u8", .user (.raw "one()")⟩,
    some ⟨"ExBCallable", "argcall::Callable", "call_fn(&self, _: ())",
          .raw "u8", .callPath "two" []⟩],
   "argcall::Callable", "Ex", .raw "u8", "call_fn(&self, _: ())",
   [⟨.unitPat "Ex" "A", .user (.raw "one()")⟩,
    ⟨.unitPat "Ex" "B", .callPath "two" []⟩]⟩

/-- Output of the generator on c3input at the by-mutable-reference entry
point. -/
def c3genMut : Generated :=
  ⟨[some ⟨"ExACallable", "argcall::CallableMut",
          "call_fn_mut(&mut self, _: ())", .raw "u8", .user (.raw "one()")⟩,
    none],
   "argcall::CallableMut", "Ex", .raw "u8", "call_fn_mut(&mut self, _: ())",
   [⟨.unitPat "Ex" "A", .user (.raw "one()")⟩,
    ⟨.tuplePat "Ex" "C" "value", .forward .CallableMut "value"⟩]⟩

/-- Output of the generator on c4input at the by-reference entry point. -/
def c4gen : Generated :=
  ⟨[none], "argcall::Callable", "Ex", .raw "u8", "call_fn(&self, _: ())",
   [⟨.namedPat "Ex" "D" ["x", "y"], .callPath "f" ["x", "y"]⟩]⟩

/-- The marker struct the generator emits for variant A of c6input at the
by-mutable-reference entry point. -/
def c6structMut : VariantStruct :=
  ⟨"FooACallable", "argcall::CallableMut", "call_fn_mut(&mut self, _: ())",
   .raw "u8", .user (.raw "one()")⟩

/-- Output of the generator on c6input at the by-mutable-reference entry
point. -/
def c6genMut : Generated :=
  ⟨[some c6structMut], "argcall::CallableMut", "Foo", .raw "u8",
   "call_fn_mut(&mut self, _: ())",
   [⟨.unitPat "Foo" "A", .user (.raw "one()")⟩]⟩

/-- Output of the generator on c9input at the by-reference entry point. -/
def c9gen : Generated :=
  ⟨[none], "argcall::Callable", "Ex", .raw "u8", "call_fn(&self, _: ())",
   [⟨.namedPat "Ex" "E" ["count"], .user (.raw "x + 1")⟩]⟩

/- ======================== helper lemmas ======================== -/

theorem collect_append (ct : CallableType) (en : String) (τ : Frag)
    (l₁ l₂ : List Variant) :
    collectVariants ct en τ (l₁ ++ l₂) =
      (collectVariants ct en τ l₁).bind
        (fun r₁ => (collectVariants ct en τ l₂).map (fun r₂ => r₁ ++ r₂)) := by
  induction l₁ with
  | nil =>
    simp only [List.nil_append, collectVariants]
    cases collectVariants ct en τ l₂ <;> simp [Except.bind, Except.map]
  | cons v rest ih =>
    simp only [List.cons_append, collectVariants, List.append_eq]
    cases parse_variant ct en τ v with
    | error e => simp [Except.bind]
    | ok r =>
      dsimp only
      rw [ih]
      cases collectVariants ct en τ rest with
      | error e => simp [Except.bind]
      | ok rs =>
        cases collectVariants ct en τ l₂ <;> simp [Except.bind, Except.map]

theorem parse_variant_ok_name (ct : CallableType) (en : String) (τ : Frag)
    (v : Variant) (r : Option VariantStruct × MatchArm)
    (h : parse_variant ct en τ v = .ok r) :
    r.2.pat.variantName = v.ident := by
  unfold parse_variant at h
  split at h
  · split at h
    · exact absurd h (by simp)
    · simp only [Except.ok.injEq] at h
      subst h
      rfl
  · simp only [Except.ok.injEq] at h
    subst h
    rfl
  · split at h
    · exact absurd h (by simp)
    · simp only [Except.ok.injEq] at h
      subst h
      rfl

theorem collect_ok_names (ct : CallableType) (en : String) (τ : Frag) :
    ∀ (vs : List Variant) (rs : List (Option VariantStruct × MatchArm)),
    collectVariants ct en τ vs = .ok rs →
    rs.map (fun r => r.2.pat.variantName) = vs.map Variant.ident := by
  intro vs
  induction vs with
  | nil =>
    intro rs h
    simp only [collectVariants, Except.ok.injEq] at h
    subst h
    rfl
  | cons v rest ih =>
    intro rs h
    simp only [collectVariants] at h
    cases hv : parse_variant ct en τ v with
    | error e => rw [hv] at h; exact absurd h (by simp)
    | ok r =>
      rw [hv] at h
      cases hrest : collectVariants ct en τ rest with
      | error e => rw [hrest] at h; exact absurd h (by simp)
      | ok rs₀ =>
        rw [hrest] at h
        simp only [Except.ok.injEq] at h
        subst h
        simp only [List.map_cons]
        rw [ih rs₀ hrest, parse_variant_ok_name ct en τ v r hv]

theorem matches_of_ne_name {V : Type} (p : Pat) (val : EnumVal V)
    (h : p.variantName ≠ val.variantName) :
    p.matches val = none := by
  cases p <;> cases val <;>
    simp_all [Pat.matches, Pat.variantName, EnumVal.variantName]

theorem evalArms_append_of_none {V : Type} (ctx : EvalCtx V)
    (arms₁ arms₂ : List MatchArm) (val : EnumVal V)
    (h : ∀ arm ∈ arms₁, arm.pat.matches val = none) :
    evalArms ctx (arms₁ ++ arms₂) val = evalArms ctx arms₂ val := by
  induction arms₁ with
  | nil => rfl
  | cons a rest ih =>
    simp only [List.cons_append, evalArms]
    rw [h a (List.mem_cons_self a rest)]
    exact ih (fun arm hm => h arm (List.mem_cons_of_mem a hm))

theorem generic_ok_inv (ct : CallableType) (en : String)
    (attrs : List SynAttr) (vs : List Variant) (g : Generated)
    (h : generic_callable ct ⟨en, attrs, .Enum vs⟩ = .ok g) :
    ∃ τ rs, extractOutput attrs = .ok τ ∧
      collectVariants ct en τ vs = .ok rs ∧
      g = ⟨rs.map Prod.fst, ct.as_trait, en, τ, ct.as_fn, rs.map Prod.snd⟩ := by
  simp only [generic_callable] at h
  split at h
  · exact absurd h (by simp)
  · split at h
    · exact absurd h (by simp)
    · simp only [Except.ok.injEq] at h
      refine ⟨_, _, ?_, ?_, h.symm⟩ <;> assumption

theorem evalDispatch_eq {V : Type} (ctx : EvalCtx V) (ct : CallableType)
    (en : String) (attrs : List SynAttr) (pre post : List Variant)
    (v : Variant) (g : Generated) (τ : Frag)
    (r : Option VariantStruct × MatchArm) (val : EnumVal V)
    (env : List (String × V))
    (hg : generic_callable ct ⟨en, attrs, .Enum (pre ++ v :: post)⟩ = .ok g)
    (hnodup : ((pre ++ v :: post).map Variant.ident).Nodup)
    (hτ : extractOutput attrs = .ok τ)
    (hr : parse_variant ct en τ v = .ok r)
    (hname : val.variantName = v.ident)
    (hmatch : r.2.pat.matches val = some env) :
    evalDispatch ctx g val = r.2.body.eval ctx env := by
  obtain ⟨τ₀, rs, hτ₀, hc, hgeq⟩ := generic_ok_inv ct en attrs _ g hg
  rw [hτ] at hτ₀
  simp only [Except.ok.injEq] at hτ₀
  subst hτ₀
  rw [collect_append] at hc
  cases hpre : collectVariants ct en τ pre with
  | error e => rw [hpre] at hc; exact absurd hc (by simp [Except.bind])
  | ok rpre =>
    rw [hpre] at hc
    simp only [Except.bind] at hc
    cases htail : collectVariants ct en τ (v :: post) with
    | error e => rw [htail] at hc; exact absurd hc (by simp [Except.map])
    | ok rtail =>
      rw [htail] at hc
      simp only [Except.map, Except.ok.injEq] at hc
      subst hc
      simp only [collectVariants] at htail
      simp only [hr] at htail
      cases hpost : collectVariants ct en τ post with
      | error e =>
        simp only [hpost] at htail
        exact absurd htail (by simp)
      | ok rpost =>
        simp only [hpost, Except.ok.injEq] at htail
        subst htail
        subst hgeq
        simp only [evalDispatch, List.map_append, List.map_cons]
        rw [evalArms_append_of_none]
        · simp only [evalArms, hmatch]
        · intro arm hm
          apply matches_of_ne_name
          rw [hname]
          have hnames := collect_ok_names ct en τ pre rpre hpre
          have harmmem : arm.pat.variantName ∈ pre.map Variant.ident := by
            rw [← hnames]
            simp only [List.map_map, List.mem_map] at hm ⊢
            obtain ⟨r₀, hr₀, hr₀eq⟩ := hm
            exact ⟨r₀, hr₀, by simp [hr₀eq]⟩
          simp only [List.map_append, List.map_cons] at hnodup
          rcases List.nodup_append.mp hnodup with ⟨_, _, hdisj⟩
          intro hcontra
          exact hdisj harmmem (by simp [hcontra])

theorem exists_ok_of_isOk {ε A : Type} (x : Except ε A) (h : x.isOk = true) :
    ∃ a, x = .ok a := by
  cases x with
  | error e => exact absurd h (by simp [Except.isOk, Except.toBool])
  | ok a => exact ⟨a, rfl⟩

theorem parse_variant_unit (ct : CallableType) (en : String) (τ : Frag)
    (v : Variant) (e : GenExpr) (hf : v.fields = VFields.Unit)
    (he : variantFn v [] = .ok e) :
    parse_variant ct en τ v =
      .ok (some ⟨en ++ v.ident ++ "Callable", ct.as_trait, ct.as_fn, τ, e⟩,
           ⟨.unitPat en v.ident, e⟩) := by
  simp [parse_variant, hf, he]

theorem parse_variant_unnamed (ct : CallableType) (en : String) (τ : Frag)
    (v : Variant) (k : Nat) (hf : v.fields = VFields.Unnamed k) :
    parse_variant ct en τ v =
      .ok (none, ⟨.tuplePat en v.ident "value", .forward ct "value"⟩) := by
  simp [parse_variant, hf]

theorem parse_variant_named (ct : CallableType) (en : String) (τ : Frag)
    (v : Variant) (ns : List String) (e : GenExpr)
    (hf : v.fields = VFields.Named ns) (he : variantFn v ns = .ok e) :
    parse_variant ct en τ v = .ok (none, ⟨.namedPat en v.ident ns, e⟩) := by
  simp [parse_variant, hf, he]

theorem parse_variant_missing (ct : CallableType) (en : String) (τ : Frag)
    (v : Variant)
    (hshape : v.fields = VFields.Unit ∨ ∃ ns, v.fields = VFields.Named ns)
    (hmiss : firstArgcall v.attrs = none) :
    parse_variant ct en τ v =
      .error (.synErr v.span "expected an \x27argcall\x27 attribute") := by
  rcases hshape with hf | ⟨ns, hf⟩ <;>
    simp [parse_variant, hf, variantFn, hmiss]

theorem parse_variant_isOk_of_unit (ct : CallableType) (en : String)
    (τ : Frag) (v : Variant) (hf : v.fields = VFields.Unit)
    (hok : (variantFn v []).isOk = true) :
    (parse_variant ct en τ v).isOk = true := by
  obtain ⟨e, he⟩ := exists_ok_of_isOk _ hok
  rw [parse_variant_unit ct en τ v e hf he]
  rfl

theorem collect_ok_of_forall (ct : CallableType) (en : String) (τ : Frag) :
    ∀ (vs : List Variant),
    (∀ w ∈ vs, (parse_variant ct en τ w).isOk = true) →
    ∃ rs, collectVariants ct en τ vs = .ok rs := by
  intro vs
  induction vs with
  | nil => exact fun _ => ⟨[], rfl⟩
  | cons v rest ih =>
    intro h
    obtain ⟨r, hr⟩ :=
      exists_ok_of_isOk _ (h v (List.mem_cons_self v rest))
    obtain ⟨rs, hrs⟩ := ih (fun w hw => h w (List.mem_cons_of_mem v hw))
    exact ⟨r :: rs, by simp [collectVariants, hr, hrs]⟩

theorem fnAttrGo_args_inv (sp : Nat) (args : List String) :
    ∀ (items : List MetaItem) (acc out : Option GenExpr),
    (∀ f₀ as₀, acc = some (.callPath f₀ as₀) → as₀ = args) →
    fnAttrGo sp args items acc = .ok out →
    ∀ f₀ as₀, out = some (.callPath f₀ as₀) → as₀ = args := by
  intro items
  induction items with
  | nil =>
    intro acc out hacc h
    simp only [fnAttrGo, Except.ok.injEq] at h
    subst h
    exact hacc
  | cons m rest ih =>
    intro acc out hacc h
    simp only [fnAttrGo] at h
    split at h
    · split at h
      · simp only [Except.ok.injEq] at h
        subst h
        intro f₀ as₀ hc
        exact absurd hc (by simp)
      · exact absurd h (by simp)
    · split at h
      · split at h
        · exact ih _ out (by intro f₀ as₀ hc; simp_all) h
        · exact absurd h (by simp)
        · exact absurd h (by simp)
      · exact absurd h (by simp)

theorem parse_fn_attribute_callPath_args (attr : SynAttr)
    (args : List String) (f : String) (as : List String)
    (h : parse_fn_attribute attr args = .ok (.callPath f as)) : as = args := by
  simp only [parse_fn_attribute] at h
  cases hgo : fnAttrGo attr.span args attr.items none with
  | error e => rw [hgo] at h; exact absurd h (by simp)
  | ok acc =>
    rw [hgo] at h
    cases acc with
    | none => exact absurd h (by simp)
    | some g =>
      simp only [Except.ok.injEq] at h
      exact fnAttrGo_args_inv attr.span args attr.items none (some g)
        (by intro f₀ as₀ hc; simp at hc) hgo f as (by rw [h])

theorem lookupEnv_map_self {V : Type} (σf : String → V) :
    ∀ (names : List String) (n : String), n ∈ names →
    lookupEnv (names.map fun m => (m, σf m)) n = some (σf n) := by
  intro names
  induction names with
  | nil => intro n h; exact absurd h (by simp)
  | cons m rest ih =>
    intro n h
    simp only [List.map_cons, lookupEnv]
    by_cases hm : m = n
    · subst hm; simp
    · rw [if_neg hm]
      rcases List.mem_cons.mp h with h₁ | h₂
      · exact absurd h₁.symm hm
      · exact ih n h₂

theorem mapM_bindings {V : Type} (σf : String → V)
    (fields : List (String × V)) :
    ∀ (bs : List String),
    (∀ b ∈ bs, lookupEnv fields b = some (σf b)) →
    bs.mapM (fun b => (lookupEnv fields b).map (fun x => (b, x))) =
      some (bs.map fun b => (b, σf b)) := by
  intro bs
  induction bs with
  | nil => intro _; rfl
  | cons b rest ih =>
    intro h
    rw [List.mapM_cons]
    rw [h b (List.mem_cons_self b rest)]
    rw [ih (fun b₀ hb => h b₀ (List.mem_cons_of_mem b hb))]
    rfl

theorem mapM_lookup_self {V : Type} (σf : String → V)
    (env : List (String × V)) :
    ∀ (bs : List String),
    (∀ b ∈ bs, lookupEnv env b = some (σf b)) →
    bs.mapM (lookupEnv env) = some (bs.map σf) := by
  intro bs
  induction bs with
  | nil => intro _; rfl
  | cons b rest ih =>
    intro h
    rw [List.mapM_cons]
    rw [h b (List.mem_cons_self b rest)]
    rw [ih (fun b₀ hb => h b₀ (List.mem_cons_of_mem b hb))]
    rfl

theorem matches_unit_self {V : Type} (en vid : String) :
    Pat.matches (.unitPat en vid) (EnumVal.unitV vid : EnumVal V) =
      some [] := by
  simp [Pat.matches]

theorem matches_tuple_self {V : Type} (en vid b : String) (inner : V) :
    Pat.matches (.tuplePat en vid b) (.tupleV vid inner) =
      some [(b, inner)] := by
  simp [Pat.matches]

theorem matches_named_self {V : Type} (en vid : String)
    (names : List String) (σf : String → V) :
    Pat.matches (.namedPat en vid names)
        (.namedV vid (names.map fun m => (m, σf m))) =
      some (names.map fun m => (m, σf m)) := by
  simp only [Pat.matches, if_pos rfl]
  exact mapM_bindings σf _ names
    (fun b hb => lookupEnv_map_self σf names b hb)

theorem generic_ok_parts (ct : CallableType) (en : String)
    (attrs : List SynAttr) (pre post : List Variant) (v : Variant)
    (g : Generated) (τ : Frag) (r : Option VariantStruct × MatchArm)
    (hg : generic_callable ct ⟨en, attrs, .Enum (pre ++ v :: post)⟩ = .ok g)
    (hτ : extractOutput attrs = .ok τ)
    (hr : parse_variant ct en τ v = .ok r) :
    ∃ rpre rpost, collectVariants ct en τ pre = .ok rpre ∧
      collectVariants ct en τ post = .ok rpost ∧
      g.variant_structs = rpre.map Prod.fst ++ r.1 :: rpost.map Prod.fst ∧
      g.match_arms = rpre.map Prod.snd ++ r.2 :: rpost.map Prod.snd := by
  obtain ⟨τ₀, rs, hτ₀, hc, hgeq⟩ := generic_ok_inv ct en attrs _ g hg
  rw [hτ] at hτ₀
  simp only [Except.ok.injEq] at hτ₀
  subst hτ₀
  rw [collect_append] at hc
  cases hpre : collectVariants ct en τ pre with
  | error e => rw [hpre] at hc; exact absurd hc (by simp [Except.bind])
  | ok rpre =>
    rw [hpre] at hc
    simp only [Except.bind] at hc
    cases htail : collectVariants ct en τ (v :: post) with
    | error e => rw [htail] at hc; exact absurd hc (by simp [Except.map])
    | ok rtail =>
      rw [htail] at hc
      simp only [Except.map, Except.ok.injEq] at hc
      subst hc
      simp only [collectVariants] at htail
      simp only [hr] at htail
      cases hpost : collectVariants ct en τ post with
      | error e =>
        simp only [hpost] at htail
        exact absurd htail (by simp)
      | ok rpost =>
        simp only [hpost, Except.ok.injEq] at htail
        subst htail
        subst hgeq
        exact ⟨rpre, rpost, rfl, rfl, by simp, by simp⟩

/- ======================== claim theorems ======================== -/

/-- C1: for every type implementing only the by-reference trait, the
derived by-mutable-reference call (the blanket CallableMut impl) and the
transitively derived consuming call (the blanket CallableOnce impl) each
return a result identical to calling call_fn directly on the same receiver
with the same argument bundle; the derived mutable call moreover leaves
the receiver unchanged. -/
theorem C1_blanket_forwarding (σ α β : Type) [Tuple α] (c : Callable σ α β)
    (s : σ) (a : α) :
    (CallableMut.ofCallable c).call_fn_mut s a = (c.call_fn s a, s) ∧
    (CallableOnce.ofCallableMut (CallableMut.ofCallable c)).call_fn_once s a =
      c.call_fn s a :=
  ⟨rfl, rfl⟩

/-- Witness: C1 instantiated at a concrete implementation and receiver. -/
theorem C1_blanket_forwarding_witness :
    (CallableMut.ofCallable c1Callable).call_fn_mut 1 () = (42, 1) ∧
    (CallableOnce.ofCallableMut
        (CallableMut.ofCallable c1Callable)).call_fn_once 1 () = 42 :=
  C1_blanket_forwarding Nat Unit Nat c1Callable 1 ()

/-- C5: for every synchronous implementer of each of the three traits, the
default asynchronous method returns a Ready future that is already
resolved when first polled, and its resolved value equals the result of
the synchronous call on the same receiver and arguments; the receiver
update of the mutable variant is also identical. -/
theorem C5_async_bridge (σ α β : Type) [Tuple α] (c : Callable σ α β)
    (m : CallableMut σ α β) (o : CallableOnce σ α β) (s : σ) (a : α) :
    (c.call_fn_async s a).poll = Poll.Ready (c.call_fn s a) ∧
    (m.call_fn_async_mut s a).1.poll = Poll.Ready (m.call_fn_mut s a).1 ∧
    (m.call_fn_async_mut s a).2 = (m.call_fn_mut s a).2 ∧
    (o.call_fn_async_once s a).poll = Poll.Ready (o.call_fn_once s a) :=
  ⟨rfl, rfl, rfl, rfl⟩

/-- Witness: C5 instantiated at concrete implementations. -/
theorem C5_async_bridge_witness :
    (c1Callable.call_fn_async 3 ()).poll = Poll.Ready 44 ∧
    (c5Mut.call_fn_async_mut 3 ()).1.poll = Poll.Ready 6 ∧
    (c5Mut.call_fn_async_mut 3 ()).2 = 4 ∧
    (c5Once.call_fn_async_once 3 ()).poll = Poll.Ready 10 :=
  C5_async_bridge Nat Unit Nat c1Callable c5Mut c5Once 3 ()

/-- C10: for a tagged union with zero cases carrying a valid output
directive, generation succeeds, the dispatcher has an empty arm list, no
marker types are produced, and no case-level validation runs. -/
theorem C10_empty_enum (ct : CallableType) (en : String)
    (attrs : List SynAttr) (τ : Frag) (h : extractOutput attrs = .ok τ) :
    generic_callable ct ⟨en, attrs, .Enum []⟩ =
      .ok ⟨[], ct.as_trait, en, τ, ct.as_fn, []⟩ := by
  simp [generic_callable, h, collectVariants]

/-- Witness: C10 instantiated at a concrete empty declaration. -/
theorem C10_empty_enum_witness :
    extractOutput [exOutputAttr] = .ok (Frag.raw "u8") ∧
    generic_callable .Callable c10input =
      .ok ⟨[], "argcall::Callable", "Empty", .raw "u8",
           "call_fn(&self, _: ())", []⟩ :=
  ⟨rfl, C10_empty_enum .Callable "Empty" [exOutputAttr] (.raw "u8") rfl⟩

/-- C7 counterexample: one argcall group carrying two output entries makes
generation succeed, but the greedy token-stream parse of the first value
swallows the rest of the group, so the result type is the combined token
text, not the first value; the claim that the first occurrence wins is
false on this input. -/
theorem C7_counterexample :
    ¬ (∀ g : Generated, generic_callable .Callable c7input = .ok g →
        g.output_type = Frag.raw "A") := by
  intro h
  have hb := h ⟨[], "argcall::Callable", "Foo", .raw "A, output = B",
                "call_fn(&self, _: ())", []⟩ rfl
  exact absurd hb (by decide)

/-- C7 amended: with no argcall group on the declaration, generation fails
with the fixed missing-output panic; with a first argcall group having no
entries, generation fails with the missing-output error spanned at that
group; a successful generation always takes its result type from the
first argcall group, never a default; when several groups carry output
entries the first group wins and later groups are never consulted; within
a single group, the value of the first output entry is parsed greedily as
a token stream that consumes the remainder of the group, so the result
type is the whole token text after the first equals sign, neither the
first nor the last written value alone. -/
theorem C7_output_directive :
    (∀ (ct : CallableType) (en : String) (attrs : List SynAttr)
        (vs : List Variant),
      firstArgcall attrs = none →
      generic_callable ct ⟨en, attrs, .Enum vs⟩ =
        .error (.panicErr "Expected #[argcall(output=...)] attribute on enum")) ∧
    (∀ (ct : CallableType) (en : String) (attrs : List SynAttr)
        (vs : List Variant) (a : SynAttr),
      firstArgcall attrs = some a → a.items = [] →
      generic_callable ct ⟨en, attrs, .Enum vs⟩ =
        .error (.synErr a.span "expected an \x27output\x27 attribute")) ∧
    (∀ (ct : CallableType) (input : DeriveInput) (g : Generated),
      generic_callable ct input = .ok g →
      ∃ a, firstArgcall input.attrs = some a ∧
        parse_output_attribute a = .ok g.output_type) ∧
    (∀ (ct : CallableType) (en : String) (attrs : List SynAttr)
        (vs : List Variant) (a : SynAttr) (τ : Frag) (g : Generated),
      firstArgcall attrs = some a → parse_output_attribute a = .ok τ →
      generic_callable ct ⟨en, attrs, .Enum vs⟩ = .ok g →
      g.output_type = τ) ∧
    (∀ (sp : Nat),
      parse_output_attribute
          ⟨"argcall", sp, [⟨"output", some (.raw "A")⟩,
                           ⟨"output", some (.raw "B")⟩]⟩ =
        .ok (.raw "A, output = B")) := by
  refine ⟨?_, ?_, ?_, ?_, ?_⟩
  · intro ct en attrs vs h
    simp [generic_callable, extractOutput, h]
  · intro ct en attrs vs a h hitems
    simp [generic_callable, extractOutput, h, parse_output_attribute,
          hitems, outputAttrGo]
  · intro ct input g h
    obtain ⟨id, attrs, data⟩ := input
    cases data with
    | Struct => exact absurd h (by simp [generic_callable])
    | Union => exact absurd h (by simp [generic_callable])
    | Enum vs =>
      obtain ⟨τ, rs, hτ, _, hgeq⟩ := generic_ok_inv ct id attrs vs g h
      simp only [extractOutput] at hτ
      cases hfa : firstArgcall attrs with
      | none => rw [hfa] at hτ; exact absurd hτ (by simp)
      | some a =>
        rw [hfa] at hτ
        have hτ₁ : parse_output_attribute a = Except.ok τ := hτ
        exact ⟨a, rfl, by rw [hgeq]; exact hτ₁⟩
  · intro ct en attrs vs a τ g h₁ h₂ h₃
    obtain ⟨τ₀, rs, hτ₀, _, hgeq⟩ := generic_ok_inv ct en attrs vs g h₃
    simp only [extractOutput, h₁, h₂, Except.ok.injEq] at hτ₀
    subst hτ₀
    rw [hgeq]
  · intro sp
    rfl

/-- Witness: the amended C7 instantiated at concrete inputs. -/
theorem C7_output_directive_witness :
    generic_callable .Callable ⟨"Z", [], .Enum []⟩ =
      .error (.panicErr "Expected #[argcall(output=...)] attribute on enum") ∧
    parse_output_attribute
        ⟨"argcall", 0, [⟨"output", some (.raw "A")⟩,
                        ⟨"output", some (.raw "B")⟩]⟩ =
      .ok (.raw "A, output = B") :=
  ⟨C7_output_directive.1 .Callable "Z" [] [] rfl,
   C7_output_directive.2.2.2.2 0⟩

/-- C8: when the declaration carries a valid output directive and a unit
or named-field case with no argcall attribute follows cases that parse
successfully, generation of the whole declaration fails with the
missing-attribute error spanned at that case, so no dispatcher is emitted
at all. -/
theorem C8_missing_case_attr (ct : CallableType) (en : String)
    (attrs : List SynAttr) (pre post : List Variant) (v : Variant) (τ : Frag)
    (hτ : extractOutput attrs = .ok τ)
    (hpre : ∀ w ∈ pre, (parse_variant ct en τ w).isOk = true)
    (hshape : v.fields = VFields.Unit ∨ ∃ ns, v.fields = VFields.Named ns)
    (hmiss : firstArgcall v.attrs = none) :
    generic_callable ct ⟨en, attrs, .Enum (pre ++ v :: post)⟩ =
      .error (.synErr v.span "expected an \x27argcall\x27 attribute") := by
  obtain ⟨rpre, hrpre⟩ := collect_ok_of_forall ct en τ pre hpre
  have hv := parse_variant_missing ct en τ v hshape hmiss
  have hcol : collectVariants ct en τ (pre ++ v :: post) =
      .error (.synErr v.span "expected an \x27argcall\x27 attribute") := by
    rw [collect_append, hrpre]
    simp [Except.bind, collectVariants, hv, Except.map]
  simp [generic_callable, hτ, hcol]

/-- Witness: C8 instantiated at a concrete declaration whose second case
is missing its attribute. -/
theorem C8_missing_case_attr_witness :
    extractOutput [exOutputAttr] = .ok (Frag.raw "u8") ∧
    (∀ w ∈ [exUnitA],
      (parse_variant .Callable "Ex" (Frag.raw "u8") w).isOk = true) ∧
    firstArgcall exMissing.attrs = none ∧
    generic_callable .Callable c8input =
      .error (.synErr 10 "expected an \x27argcall\x27 attribute") := by
  refine ⟨rfl, by decide, rfl, ?_⟩
  exact C8_missing_case_attr .Callable "Ex" [exOutputAttr] [exUnitA] []
    exMissing (.raw "u8") rfl (by decide) (Or.inl rfl) rfl

/-- C6 counterexample: at the by-mutable-reference entry point the marker
type emitted for a unit case implements the by-mutable-reference trait,
not the by-reference trait, so the claim that the marker always implements
the by-reference interface is false on this input. -/
theorem C6_counterexample :
    ¬ (∀ (ct : CallableType) (g : Generated) (s : VariantStruct),
        generic_callable ct c6input = .ok g →
        some s ∈ g.variant_structs → s.trait_name = "argcall::Callable") := by
  intro h
  have hm : some c6structMut ∈ c6genMut.variant_structs := by
    simp [c6genMut]
  have hs := h .CallableMut c6genMut c6structMut rfl hm
  exact absurd hs (by decide)

/-- C6 amended: for every unit case of a successfully processed
declaration, the generator emits exactly one marker type for that case,
named declaration name, then case name, then the fixed suffix Callable,
implementing the trait of the requested entry point (not necessarily the
by-reference one) with the method of that entry point, and its body is the
bound expression of the case; the emitted marker appears in the generator
output. -/
theorem C6_marker_struct (ct : CallableType) (en : String) (τ : Frag)
    (v : Variant) (e : GenExpr) (hf : v.fields = VFields.Unit)
    (he : variantFn v [] = .ok e) :
    parse_variant ct en τ v =
      .ok (some ⟨en ++ v.ident ++ "Callable", ct.as_trait, ct.as_fn, τ, e⟩,
           ⟨.unitPat en v.ident, e⟩) ∧
    (∀ (attrs : List SynAttr) (pre post : List Variant) (g : Generated),
      generic_callable ct ⟨en, attrs, .Enum (pre ++ v :: post)⟩ = .ok g →
      extractOutput attrs = .ok τ →
      some ⟨en ++ v.ident ++ "Callable", ct.as_trait, ct.as_fn, τ, e⟩ ∈
        g.variant_structs) := by
  have hp := parse_variant_unit ct en τ v e hf he
  refine ⟨hp, ?_⟩
  intro attrs pre post g hg hτ
  obtain ⟨rpre, rpost, _, _, hvs, _⟩ :=
    generic_ok_parts ct en attrs pre post v g τ _ hg hτ hp
  rw [hvs]
  exact List.mem_append.mpr (Or.inr (List.mem_cons_self _ _))

/-- Witness: the amended C6 instantiated at a concrete declaration and
the by-mutable-reference entry point. -/
theorem C6_marker_struct_witness :
    parse_variant .CallableMut "Foo" (.raw "u8") exUnitA =
      .ok (some c6structMut, ⟨.unitPat "Foo" "A", .user (.raw "one()")⟩) ∧
    some c6structMut ∈ c6genMut.variant_structs := by
  have h := C6_marker_struct .CallableMut "Foo" (.raw "u8") exUnitA
    (.user (.raw "one()")) rfl rfl
  exact ⟨h.1, h.2 [exOutputAttr] [] [] c6genMut rfl rfl⟩

/-- C2: for a tagged union whose cases are all unit cases each carrying a
parsable fn or fn_path directive, with a valid declaration-level output
directive and distinct case names, generation at the by-reference entry
point succeeds and the generated call on a value constructed as case v
returns exactly the evaluation of the bound expression of v; for fn_path
the bound expression is the named function applied to zero arguments. -/
theorem C2_unit_dispatch {V : Type} (ctx : EvalCtx V) (en : String)
    (attrs : List SynAttr) (vs : List Variant) (τ : Frag) (v : Variant)
    (a : SynAttr) (e : GenExpr)
    (hτ : extractOutput attrs = .ok τ)
    (hnodup : (vs.map Variant.ident).Nodup)
    (hall : ∀ w ∈ vs, w.fields = VFields.Unit ∧ (variantFn w []).isOk = true)
    (hv : v ∈ vs)
    (ha : firstArgcall v.attrs = some a)
    (he : parse_fn_attribute a [] = .ok e) :
    ∃ g, generic_callable .Callable ⟨en, attrs, .Enum vs⟩ = .ok g ∧
      evalDispatch ctx g (.unitV v.ident) = e.eval ctx [] ∧
      (∀ f as, e = GenExpr.callPath f as → as = []) := by
  have hvf : variantFn v [] = .ok e := by
    simp [variantFn, ha, he]
  have hfu : v.fields = VFields.Unit := (hall v hv).1
  have hok : ∀ w ∈ vs, (parse_variant .Callable en τ w).isOk = true :=
    fun w hw =>
      parse_variant_isOk_of_unit .Callable en τ w (hall w hw).1 (hall w hw).2
  obtain ⟨rs, hrs⟩ := collect_ok_of_forall .Callable en τ vs hok
  have hg : generic_callable .Callable ⟨en, attrs, .Enum vs⟩ =
      .ok ⟨rs.map Prod.fst, CallableType.Callable.as_trait, en, τ,
           CallableType.Callable.as_fn, rs.map Prod.snd⟩ := by
    simp [generic_callable, hτ, hrs]
  obtain ⟨pre, post, hsplit⟩ := List.append_of_mem hv
  subst hsplit
  refine ⟨_, hg, ?_, ?_⟩
  · exact evalDispatch_eq ctx .Callable en attrs pre post v _ τ
      (some ⟨en ++ v.ident ++ "Callable", CallableType.Callable.as_trait,
             CallableType.Callable.as_fn, τ, e⟩,
       ⟨.unitPat en v.ident, e⟩)
      (.unitV v.ident) [] hg hnodup hτ
      (parse_variant_unit .Callable en τ v e hfu hvf)
      rfl (matches_unit_self en v.ident)
  · intro f as hcp
    exact parse_fn_attribute_callPath_args a [] f as (by rw [← hcp]; exact he)

/-- Witness: C2 instantiated at a concrete two-case declaration, invoked
on the fn_path case. -/
theorem C2_unit_dispatch_witness :
    extractOutput [exOutputAttr] = .ok (Frag.raw "u8") ∧
    (∃ g, generic_callable .Callable c2input = .ok g ∧
      evalDispatch natCtx g (.unitV "B") =
        (GenExpr.callPath "two" []).eval natCtx [] ∧
      (∀ f as, GenExpr.callPath "two" [] = GenExpr.callPath f as →
        as = [])) := by
  refine ⟨rfl, ?_⟩
  exact C2_unit_dispatch natCtx "Ex" [exOutputAttr] [exUnitA, exUnitB]
    (.raw "u8") exUnitB ⟨"argcall", 4, [⟨"fn_path", some (.litStr "two")⟩]⟩
    (.callPath "two" []) rfl (by decide) (by decide) (by decide) rfl rfl

/-- C3: for a successfully processed tagged union with distinct case names
containing a single-anonymous-field case, the generated dispatcher arm for
that case consults no case-level directive (the result of processing the
case does not depend on its attributes), and invoking the dispatcher on a
value of that case forwards to the sibling method of the inner value
matching the requested entry point, applied to the empty argument bundle,
returning its result unchanged. -/
theorem C3_unnamed_forwarding {V : Type} (ctx : EvalCtx V)
    (ct : CallableType) (en : String) (attrs : List SynAttr)
    (pre post : List Variant) (v : Variant) (g : Generated) (τ : Frag)
    (inner : V)
    (hg : generic_callable ct ⟨en, attrs, .Enum (pre ++ v :: post)⟩ = .ok g)
    (hτ : extractOutput attrs = .ok τ)
    (hnodup : ((pre ++ v :: post).map Variant.ident).Nodup)
    (hf : v.fields = VFields.Unnamed 1) :
    evalDispatch ctx g (.tupleV v.ident inner) =
      some (ctx.forwardCall ct inner) ∧
    (∀ x : V, ctx.forwardCall .Callable x = ctx.inner_call_fn x () ∧
      ctx.forwardCall .CallableMut x = ctx.inner_call_fn_mut x () ∧
      ctx.forwardCall .CallableOnce x = ctx.inner_call_fn_once x ()) ∧
    (∀ (τ₀ : Frag) (attrs₀ : List SynAttr),
      parse_variant ct en τ₀ ⟨v.ident, v.span, attrs₀, VFields.Unnamed 1⟩ =
        parse_variant ct en τ₀ ⟨v.ident, v.span, v.attrs,
                                VFields.Unnamed 1⟩) := by
  refine ⟨?_, fun x => ⟨rfl, rfl, rfl⟩, fun τ₀ attrs₀ => rfl⟩
  have hd := evalDispatch_eq ctx ct en attrs pre post v g τ
    (none, ⟨.tuplePat en v.ident "value", .forward ct "value"⟩)
    (.tupleV v.ident inner) [("value", inner)] hg hnodup hτ
    (parse_variant_unnamed ct en τ v 1 hf) rfl
    (matches_tuple_self en v.ident "value" inner)
  rw [hd]
  simp [GenExpr.eval, lookupEnv]

/-- Witness: C3 instantiated at a concrete declaration at the
by-mutable-reference entry point. -/
theorem C3_unnamed_forwarding_witness :
    generic_callable .CallableMut c3input = .ok c3genMut ∧
    evalDispatch natCtx c3genMut (.tupleV "C" 5) =
      some (natCtx.forwardCall .CallableMut 5) := by
  refine ⟨rfl, ?_⟩
  have h := C3_unnamed_forwarding natCtx .CallableMut "Ex" [exOutputAttr]
    [exUnitA] [] exTupleC c3genMut (.raw "u8") 5 rfl rfl (by decide) rfl
  exact h.1

/-- C4: for a named-field case bound through fn_path in a successfully
processed declaration with distinct case names, the generated arm calls
the named function with the fields of the case passed as positional
arguments in field declaration order, and evaluating the dispatcher on a
value of that case yields that call on the field values in declaration
order; replacing the field declaration list by any reordering reorders
the generated argument list in exactly the same way. -/
theorem C4_named_fn_path_order {V : Type} (ctx : EvalCtx V)
    (ct : CallableType) (en : String) (attrs : List SynAttr)
    (pre post : List Variant) (v : Variant) (g : Generated) (τ : Frag)
    (names : List String) (f : String) (a : SynAttr) (σf : String → V)
    (hg : generic_callable ct ⟨en, attrs, .Enum (pre ++ v :: post)⟩ = .ok g)
    (hτ : extractOutput attrs = .ok τ)
    (hnodup : ((pre ++ v :: post).map Variant.ident).Nodup)
    (hf : v.fields = VFields.Named names)
    (ha : firstArgcall v.attrs = some a)
    (hitems : a.items = [⟨"fn_path", some (.litStr f)⟩]) :
    parse_variant ct en τ v =
      .ok (none, ⟨.namedPat en v.ident names, .callPath f names⟩) ∧
    evalDispatch ctx g (.namedV v.ident (names.map fun n => (n, σf n))) =
      some (ctx.evalFnCall f (names.map σf)) ∧
    (∀ (names₀ : List String),
      parse_variant ct en τ ⟨v.ident, v.span, v.attrs, .Named names₀⟩ =
        .ok (none, ⟨.namedPat en v.ident names₀, .callPath f names₀⟩)) := by
  have hvf : variantFn v names = .ok (.callPath f names) := by
    simp only [variantFn, ha, parse_fn_attribute, hitems]
    rfl
  have hp := parse_variant_named ct en τ v names (.callPath f names) hf hvf
  refine ⟨hp, ?_, ?_⟩
  · have hd := evalDispatch_eq ctx ct en attrs pre post v g τ
      (none, ⟨.namedPat en v.ident names, .callPath f names⟩)
      (.namedV v.ident (names.map fun n => (n, σf n)))
      (names.map fun n => (n, σf n)) hg hnodup hτ hp rfl
      (matches_named_self en v.ident names σf)
    rw [hd]
    simp only [GenExpr.eval]
    rw [mapM_lookup_self σf _ names
      (fun b hb => lookupEnv_map_self σf names b hb)]
    rfl
  · intro names₀
    have hvf₀ : variantFn ⟨v.ident, v.span, v.attrs, VFields.Named names₀⟩
        names₀ = .ok (.callPath f names₀) := by
      simp only [variantFn, ha, parse_fn_attribute, hitems]
      rfl
    exact parse_variant_named ct en τ
      ⟨v.ident, v.span, v.attrs, VFields.Named names₀⟩ names₀ _ rfl hvf₀

/-- Witness: C4 instantiated at a concrete declaration with fields x, y. -/
theorem C4_named_fn_path_order_witness :
    generic_callable .Callable c4input = .ok c4gen ∧
    evalDispatch natCtx c4gen (.namedV "D" [("x", 4), ("y", 7)]) =
      some (natCtx.evalFnCall "f" [4, 7]) := by
  refine ⟨rfl, ?_⟩
  have h := C4_named_fn_path_order natCtx .Callable "Ex" [exOutputAttr]
    [] [] exNamedD c4gen (.raw "u8") ["x", "y"] "f"
    ⟨"argcall", 7, [⟨"fn_path", some (.litStr "f")⟩]⟩
    (fun n => if n = "x" then 4 else 7) rfl rfl (by decide) rfl rfl rfl
  exact h.2.1

/-- C9 counterexample: for a named-field case bound through fn, the
generated dispatcher arm destructures the case, binding its field names
around the expression, so the claim that the generator introduces no
implicit binding of the field names within that expression is false on
this input. -/
theorem C9_counterexample :
    ¬ (∀ g : Generated, generic_callable .Callable c9input = .ok g →
        ∀ arm ∈ g.match_arms, Pat.binders arm.pat = []) := by
  intro h
  have hb := h c9gen rfl
    ⟨.namedPat "Ex" "E" ["count"], .user (.raw "x + 1")⟩ (by decide)
  exact absurd hb (by decide)

/-- C9 amended: for a named-field case bound through fn in a successfully
processed declaration with distinct case names, the generated arm keeps
the expression verbatim and its pattern binds exactly the field names of
the case in declaration order, so the expression is evaluated with the
field names in scope, bound to the field values of the matched value. -/
theorem C9_named_fn_scope {V : Type} (ctx : EvalCtx V) (ct : CallableType)
    (en : String) (attrs : List SynAttr) (pre post : List Variant)
    (v : Variant) (g : Generated) (τ : Frag) (names : List String)
    (e₀ : Frag) (a : SynAttr) (σf : String → V)
    (hg : generic_callable ct ⟨en, attrs, .Enum (pre ++ v :: post)⟩ = .ok g)
    (hτ : extractOutput attrs = .ok τ)
    (hnodup : ((pre ++ v :: post).map Variant.ident).Nodup)
    (hf : v.fields = VFields.Named names)
    (ha : firstArgcall v.attrs = some a)
    (hitems : a.items = [⟨"fn", some e₀⟩]) :
    parse_variant ct en τ v =
      .ok (none, ⟨.namedPat en v.ident names, .user e₀⟩) ∧
    Pat.binders (.namedPat en v.ident names) = names ∧
    evalDispatch ctx g (.namedV v.ident (names.map fun n => (n, σf n))) =
      some (ctx.evalUser e₀ (names.map fun n => (n, σf n))) := by
  have hvf : variantFn v names = .ok (.user e₀) := by
    simp only [variantFn, ha, parse_fn_attribute, hitems]
    rfl
  have hp := parse_variant_named ct en τ v names (.user e₀) hf hvf
  refine ⟨hp, rfl, ?_⟩
  have hd := evalDispatch_eq ctx ct en attrs pre post v g τ
    (none, ⟨.namedPat en v.ident names, .user e₀⟩)
    (.namedV v.ident (names.map fun n => (n, σf n)))
    (names.map fun n => (n, σf n)) hg hnodup hτ hp rfl
    (matches_named_self en v.ident names σf)
  rw [hd]
  rfl

/-- Witness: the amended C9 instantiated at a concrete declaration with
one named-field case bound through fn. -/
theorem C9_named_fn_scope_witness :
    generic_callable .Callable c9input = .ok c9gen ∧
    Pat.binders (.namedPat "Ex" "E" ["count"]) = ["count"] ∧
    evalDispatch natCtx c9gen (.namedV "E" [("count", 5)]) =
      some (natCtx.evalUser (.raw "x + 1") [("count", 5)]) := by
  refine ⟨rfl, ?_, ?_⟩
  all_goals
    have h := C9_named_fn_scope natCtx .Callable "Ex" [exOutputAttr] [] []
      exNamedE c9gen (.raw "u8") ["count"] (.raw "x + 1")
      ⟨"argcall", 9, [⟨"fn", some (.raw "x + 1")⟩]⟩ (fun _ => 5)
      rfl rfl (by decide) rfl rfl rfl
  · exact h.2.1
  · exact h.2.2

end Argcall
